import Mathlib

/-!
Verification of the sp500_strategy_analysis repository.

The source is embedded shallowly: prices are exact rationals (the spec treats
them as reals), the pandas DataFrame is a list of rows indexed by position
(the date index is strictly increasing, so the integer position stands in for
the date), and the imperative loops of `ma_crossover_strategy`,
`buy_and_hold` and `prepare_strategy_data` become folds over the same index
ranges.  A Python `IndexError` (out-of-range `iloc`/`index` access) is
modeled by an `Option` result.
-/

set_option maxHeartbeats 1000000
set_option maxRecDepth 8000

/-- Action label of a buy transaction, as the source writes it. -/
def BUY : String := "BUY"

/-- Action label of a sell transaction, as the source writes it. -/
def SELL : String := "SELL"

/-- A row of the price DataFrame after signal generation: `close` is the
Close column, `signal` the Signal column (1 = buy, -1 = sell, 0 = none). -/
structure Row where
  close : ℚ
  signal : ℤ
deriving DecidableEq

/-- The DataFrame handed to the strategies: rows at positions 0,1,2,...  The
position doubles as the date, since dates are strictly increasing. -/
abbrev Frame := List Row

/-- Close price read by `data["Close"].iloc[i]` (always in range inside the
source loops; out of range defaults are never relied on by the theorems). -/
def closeAt (data : Frame) (i : ℕ) : ℚ :=
  ((data.get? i).map Row.close).getD 0

/-- Signal read by `data["Signal"].iloc[i]`; out of range defaults to 0,
which makes the step a no-op exactly as an absent row trades nothing. -/
def signalAt (data : Frame) (i : ℕ) : ℤ :=
  ((data.get? i).map Row.signal).getD 0

/-- Close price read by `data["Close"].iloc[-1]` (the last row). -/
def lastClose (data : Frame) : ℚ :=
  ((data.getLast?).map Row.close).getD 0

/-- One entry of the `transactions` list built by `ma_crossover_strategy`. -/
structure Transaction where
  date : ℕ
  action : String
  price : ℚ
  shares : ℚ
  value : ℚ
deriving DecidableEq

/-- Loop state of `ma_crossover_strategy`: cash, shares, in_market and the
append-only transaction log. -/
structure Position where
  cash : ℚ
  shares : ℚ
  in_market : Bool
  transactions : List Transaction
deriving DecidableEq

/-- Initial state of `ma_crossover_strategy`: cash = 10000.0, shares = 0.0,
in_market = False, transactions = []. -/
def initPos : Position :=
  ⟨10000, 0, false, []⟩

/-- One iteration of the `for i in range(200, len(data))` loop of
`ma_crossover_strategy`: price = Close.iloc[i], signal = Signal.iloc[i];
buy if `signal == 1 and not in_market`, sell if `signal == -1 and
in_market`, otherwise leave the state unchanged. -/
def maStep (data : Frame) (st : Position) (i : ℕ) : Position :=
  if signalAt data i = 1 ∧ st.in_market = false then
    ⟨0, st.cash / closeAt data i, true,
      st.transactions ++ [⟨i, BUY, closeAt data i, st.cash / closeAt data i,
        st.cash / closeAt data i * closeAt data i⟩]⟩
  else if signalAt data i = -1 ∧ st.in_market = true then
    ⟨st.shares * closeAt data i, 0, false,
      st.transactions ++ [⟨i, SELL, closeAt data i, 0, st.shares * closeAt data i⟩]⟩
  else st

/-- State after the first k iterations of the crossover loop, i.e. after the
loop indices 200, 201, ..., 199 + k. -/
def runMAk (data : Frame) (k : ℕ) : Position :=
  (List.range' 200 k).foldl (maStep data) initPos

/-- Full run of the `ma_crossover_strategy` loop over range(200, len(data));
for frames of at most 200 rows the range is empty and nothing happens. -/
def runMA (data : Frame) : Position :=
  runMAk data (data.length - 200)

/-- Final value of `ma_crossover_strategy`:
`final_cash if final_cash > 0 else final_shares * final_price` with
`final_price = Close.iloc[-1]`; `iloc[-1]` raises on an empty frame,
modeled as `none`. -/
def ma_crossover_final_value (data : Frame) : Option ℚ :=
  (data.getLast?).map fun last =>
    if 0 < (runMA data).cash then (runMA data).cash else (runMA data).shares * last.close

/-- Result dictionary of `buy_and_hold`. -/
structure BHResult where
  initial_investment : ℚ
  final_value : ℚ
  return_percentage : ℚ
  shares : ℚ
deriving DecidableEq

/-- `buy_and_hold`: shares = 10000.0 / Close.iloc[200]; `iloc[200]` raises an
IndexError whenever the series has at most 200 rows (modeled as `none`);
final_value = shares * Close.iloc[-1]. -/
def buy_and_hold (data : Frame) : Option BHResult :=
  match data.get? 200 with
  | none => none
  | some row =>
    let shares : ℚ := 10000 / row.close
    let final_value : ℚ := shares * lastClose data
    some ⟨10000, final_value, (final_value - 10000) / 10000 * 100, shares⟩

/-- Loop state of `prepare_strategy_data`: current_value, shares,
in_market. -/
structure PrepState where
  current_value : ℚ
  shares : ℚ
  in_market : Bool
deriving DecidableEq

/-- Initial state of the `prepare_strategy_data` loop: current_value =
10000.0, shares = 0.0, in_market = False. -/
def initPrep : PrepState :=
  ⟨10000, 0, false⟩

/-- One iteration of the `for i in range(201, len(sp500_data))` loop of
`prepare_strategy_data`: prev_signal = Signal at i-1, prev_close = Close at
i-1; buy if `prev_signal == 1 and not in_market` (current_value is left
untouched), sell if `prev_signal == -1 and in_market`. -/
def prepStep (data : Frame) (st : PrepState) (i : ℕ) : PrepState :=
  if signalAt data (i - 1) = 1 ∧ st.in_market = false then
    ⟨st.current_value, st.current_value / closeAt data (i - 1), true⟩
  else if signalAt data (i - 1) = -1 ∧ st.in_market = true then
    ⟨st.shares * closeAt data (i - 1), 0, false⟩
  else st

/-- State after the first k iterations of that loop, i.e. after the loop
indices 201, 202, ..., 200 + k. -/
def prepStateK (data : Frame) (k : ℕ) : PrepState :=
  (List.range' 201 k).foldl (prepStep data) initPrep

/-- The MA_Value cell of `prepare_strategy_data` for index i.  Cells are
written once and never re-read, so the imperative loop is captured
per-index: None before the warm-up boundary, 10000.0 at index 200, and for
i > 200 the value written in loop iteration i from the state right after
that iteration's update (shares * Close at i if in market, else
current_value). -/
def MA_Value_at (data : Frame) (i : ℕ) : Option ℚ :=
  if i < 200 then none
  else if i = 200 then some 10000
  else some (if (prepStateK data (i - 200)).in_market then
    (prepStateK data (i - 200)).shares * closeAt data i
  else (prepStateK data (i - 200)).current_value)

/-- The BH_Value cell of `prepare_strategy_data` for index i: None for
i < 200, bh_shares * Close at i from index 200 on. -/
def BH_Value_at (data : Frame) (bh_shares : ℚ) (i : ℕ) : Option ℚ :=
  if i < 200 then none else some (bh_shares * closeAt data i)

/-- The MA_Value column produced by `prepare_strategy_data`.  The function
evaluates `sp500_data.index[200]`, which raises an IndexError whenever the
frame has at most 200 rows; the whole call is therefore modeled as `none`
in that case. -/
def prepare_strategy_data_MA (data : Frame) : Option (List (Option ℚ)) :=
  if 200 < data.length then
    some ((List.range data.length).map (MA_Value_at data))
  else none

/-- The BH_Value column produced by `prepare_strategy_data`; the same
IndexError at `sp500_data.index[200]` aborts the call for short frames. -/
def prepare_strategy_data_BH (data : Frame) (bh_shares : ℚ) : Option (List (Option ℚ)) :=
  if 200 < data.length then
    some ((List.range data.length).map (BH_Value_at data bh_shares))
  else none

/-- Modelled from the spec: one step of the claimed lagged scan.  At index i
the simulator inspects the signal computed at i-1 and trades at the close of
index i-1, logging the transaction dated i-1; Buy only when FLAT, Sell only
when IN_MARKET, otherwise no transition. -/
def specLagStep (data : Frame) (st : Position) (i : ℕ) : Position :=
  if signalAt data (i - 1) = 1 ∧ st.in_market = false then
    ⟨0, st.cash / closeAt data (i - 1), true,
      st.transactions ++ [⟨i - 1, BUY, closeAt data (i - 1), st.cash / closeAt data (i - 1),
        st.cash / closeAt data (i - 1) * closeAt data (i - 1)⟩]⟩
  else if signalAt data (i - 1) = -1 ∧ st.in_market = true then
    ⟨st.shares * closeAt data (i - 1), 0, false,
      st.transactions ++ [⟨i - 1, SELL, closeAt data (i - 1), 0, st.shares * closeAt data (i - 1)⟩]⟩
  else st

/-- Modelled from the spec: the claimed crossover simulator scans indices in
increasing order starting one past the warm-up boundary (201) up to the last
index, starting FLAT with full cash. -/
def specLagSim (data : Frame) : Position :=
  (List.range' 201 (data.length - 201)).foldl (specLagStep data) initPos

/-- pandas comparison `x < y` between two possibly-NaN cells: any comparison
involving NaN (None) is False. -/
def optLT (a b : Option ℚ) : Bool :=
  match a, b with
  | some x, some y => decide (x < y)
  | _, _ => false

/-- pandas comparison `x <= y`; False when either side is NaN. -/
def optLE (a b : Option ℚ) : Bool :=
  match a, b with
  | some x, some y => decide (x ≤ y)
  | _, _ => false

/-- pandas comparison `x > y`; False when either side is NaN. -/
def optGT (a b : Option ℚ) : Bool :=
  match a, b with
  | some x, some y => decide (y < x)
  | _, _ => false

/-- pandas comparison `x >= y`; False when either side is NaN. -/
def optGE (a b : Option ℚ) : Bool :=
  match a, b with
  | some x, some y => decide (y ≤ x)
  | _, _ => false

/-- An indicator-augmented frame as seen by `generate_signals`: the MA50 and
MA200 columns, with None for NaN warm-up cells. -/
structure IndFrame where
  ma50 : List (Option ℚ)
  ma200 : List (Option ℚ)
deriving DecidableEq

/-- Cell of an indicator column at index i. -/
def colAt (col : List (Option ℚ)) (i : ℕ) : Option ℚ :=
  (col.get? i).join

/-- Cell of `col.shift(1)` at index i: NaN at index 0, else the cell at
i-1. -/
def prevAt (col : List (Option ℚ)) (i : ℕ) : Option ℚ :=
  if i = 0 then none else colAt col (i - 1)

/-- The Signal column of `generate_signals` at index i: 0 everywhere, then 1
where `MA50 > MA200` and `MA50.shift(1) <= MA200.shift(1)`, then -1 where
`MA50 < MA200` and `MA50.shift(1) >= MA200.shift(1)` (the later assignment
wins, though the two conditions are disjoint). -/
def Signal_at (f : IndFrame) (i : ℕ) : ℤ :=
  if optLT (colAt f.ma50 i) (colAt f.ma200 i) && optGE (prevAt f.ma50 i) (prevAt f.ma200 i) then
    -1
  else if optGT (colAt f.ma50 i) (colAt f.ma200 i) && optLE (prevAt f.ma50 i) (prevAt f.ma200 i) then
    1
  else 0

/-- pandas `Series.rolling(window=w).mean()` at index i: NaN until w
observations exist, then the mean of the window slice of w closes ending at
i inclusive. -/
def rollingMean (w : ℕ) (close : List ℚ) (i : ℕ) : Option ℚ :=
  if i + 1 < w then none
  else some (((close.drop (i + 1 - w)).take w).sum / (w : ℚ))

/-- `calculate_moving_averages`: adds the MA50 and MA200 columns, one cell
per row of the frame. -/
def calculate_moving_averages (close : List ℚ) : List (Option ℚ) × List (Option ℚ) :=
  ((List.range close.length).map (rollingMean 50 close),
   (List.range close.length).map (rollingMean 200 close))

/-- Modelled from the spec: the naive trailing mean, the arithmetic mean of
close over the trailing w points ending at i inclusive, undefined for
i < w - 1.  Comparator for the claim that the indicator calculator equals
the naive definition. -/
def trailingMeanSpec (w : ℕ) (close : List ℚ) (i : ℕ) : Option ℚ :=
  if i < w - 1 then none
  else some ((((List.range w).map fun j => close.getD (i - j) 0).sum) / (w : ℚ))

/-- A dynamic Python value as passed to `to_scalar`: a scalar, a pandas
Series, or a pandas DataFrame (for the two container kinds `iloc[0]` is the
first element and `empty` is emptiness of the element list). -/
inductive PyVal where
  | scalar : ℚ → PyVal
  | series : List ℚ → PyVal
  | frame : List ℚ → PyVal
deriving DecidableEq

/-- `to_scalar`: 0.0 for an empty Series or DataFrame, else
`float(value.iloc[0])`; `float(value)` for anything else. -/
def to_scalar : PyVal → ℚ
  | PyVal.scalar x => x
  | PyVal.series [] => 0
  | PyVal.series (x :: _) => x
  | PyVal.frame [] => 0
  | PyVal.frame (x :: _) => x

/-- A 201-row frame: constant close 100 and a single buy signal at the last
index, 200. -/
def frameA : Frame :=
  List.replicate 200 ⟨100, 0⟩ ++ [⟨100, 1⟩]

/-- A 201-row frame: every close is -100 and a buy signal sits at index
200. -/
def frameNeg : Frame :=
  List.replicate 200 ⟨-100, 0⟩ ++ [⟨-100, 1⟩]

/-- A constant 200-row frame with no signals. -/
def frame200 : Frame :=
  List.replicate 200 ⟨100, 0⟩

/-- A constant 100-row frame with no signals. -/
def frame100 : Frame :=
  List.replicate 100 ⟨100, 0⟩

/-! Helper lemmas shared by the claim theorems. -/

/-- A nonzero signal can only be read from an existing row, whose close is
then the value `closeAt` returns. -/
lemma row_of_signal (data : Frame) (i : ℕ) (h : signalAt data i ≠ 0) :
    ∃ r, data.get? i = some r ∧ r.close = closeAt data i := by
  cases hg : data.get? i with
  | none =>
    unfold signalAt at h
    rw [hg] at h
    simp at h
  | some r =>
    refine ⟨r, rfl, ?_⟩
    unfold closeAt
    rw [hg]
    rfl

/-- If every close in the frame is positive, the close read at any index
carrying a nonzero signal is positive. -/
lemma closeAt_pos (data : Frame) (hpos : ∀ r ∈ data, 0 < r.close) (i : ℕ)
    (h : signalAt data i ≠ 0) : 0 < closeAt data i := by
  obtain ⟨r, hg, hc⟩ := row_of_signal data i h
  rw [← hc]
  exact hpos r (List.get?_mem hg)

/-- Simulation invariant relating the `ma_crossover_strategy` state to the
`prepare_strategy_data` state after the same signals have been processed:
the market flags agree; in the market the share counts agree, cash is zero
and shares are positive; out of the market the crossover cash equals the
prepared current_value, both share counts are zero and cash is positive;
and every logged transaction carries a positive price and a nonnegative
share count. -/
def SimInv (c : Position) (p : PrepState) : Prop :=
  c.in_market = p.in_market ∧
  (c.in_market = true → c.shares = p.shares ∧ c.cash = 0 ∧ 0 < c.shares) ∧
  (c.in_market = false →
    c.cash = p.current_value ∧ c.shares = 0 ∧ p.shares = 0 ∧ 0 < c.cash) ∧
  (∀ t ∈ c.transactions, 0 < t.price ∧ 0 ≤ t.shares)

lemma inv_init : SimInv initPos initPrep := by
  refine ⟨rfl, ?_, ?_, ?_⟩ <;> simp [initPos, initPrep]

/-- The invariant is preserved when the crossover loop processes index i and
the prepare loop processes loop index i+1 (both read the signal and the
close at index i). -/
lemma inv_step (data : Frame) (hpos : ∀ r ∈ data, 0 < r.close)
    (c : Position) (p : PrepState) (i : ℕ) (h : SimInv c p) :
    SimInv (maStep data c i) (prepStep data p (i + 1)) := by
  obtain ⟨hm, hin, hout, htx⟩ := h
  simp only [maStep, prepStep, Nat.add_sub_cancel]
  cases hcm : c.in_market with
  | false =>
    obtain ⟨hcash, hcsh, hpsh, hcpos⟩ := hout hcm
    have hpm : p.in_market = false := by rw [← hm]; exact hcm
    by_cases hs1 : signalAt data i = 1
    · have hcl : 0 < closeAt data i := closeAt_pos data hpos i (by rw [hs1]; decide)
      rw [if_pos ⟨hs1, rfl⟩, if_pos ⟨hs1, hpm⟩]
      refine ⟨rfl, ?_, ?_, ?_⟩
      · intro _
        exact ⟨by rw [hcash], rfl, div_pos hcpos hcl⟩
      · intro hfalse
        simp at hfalse
      · intro t ht
        rcases List.mem_append.mp ht with h1 | h1
        · exact htx t h1
        · simp only [List.mem_singleton] at h1
          subst h1
          exact ⟨hcl, le_of_lt (div_pos hcpos hcl)⟩
    · have hnc1 : ¬(signalAt data i = 1 ∧ false = false) := fun hc => hs1 hc.1
      have hnc1p : ¬(signalAt data i = 1 ∧ p.in_market = false) := fun hc => hs1 hc.1
      have hnc2 : ¬(signalAt data i = -1 ∧ false = true) := by
        rintro ⟨-, h2⟩
        exact absurd h2 (by decide)
      have hnc2p : ¬(signalAt data i = -1 ∧ p.in_market = true) := by
        rintro ⟨-, h2⟩
        rw [hpm] at h2
        exact absurd h2 (by decide)
      rw [if_neg hnc1, if_neg hnc2, if_neg hnc1p, if_neg hnc2p]
      exact ⟨hm, hin, hout, htx⟩
  | true =>
    obtain ⟨hsh, hcash0, hshpos⟩ := hin hcm
    have hpm : p.in_market = true := by rw [← hm]; exact hcm
    have hnc1 : ¬(signalAt data i = 1 ∧ true = false) := by
      rintro ⟨-, h2⟩
      exact absurd h2 (by decide)
    have hnc1p : ¬(signalAt data i = 1 ∧ p.in_market = false) := by
      rintro ⟨-, h2⟩
      rw [hpm] at h2
      exact absurd h2 (by decide)
    by_cases hs2 : signalAt data i = -1
    · have hcl : 0 < closeAt data i := closeAt_pos data hpos i (by rw [hs2]; decide)
      rw [if_neg hnc1, if_pos ⟨hs2, rfl⟩, if_neg hnc1p, if_pos ⟨hs2, hpm⟩]
      refine ⟨rfl, ?_, ?_, ?_⟩
      · intro hfalse
        simp at hfalse
      · intro _
        exact ⟨by rw [hsh], rfl, rfl, mul_pos hshpos hcl⟩
      · intro t ht
        rcases List.mem_append.mp ht with h1 | h1
        · exact htx t h1
        · simp only [List.mem_singleton] at h1
          subst h1
          exact ⟨hcl, le_refl 0⟩
    · have hnc2 : ¬(signalAt data i = -1 ∧ true = true) := fun hc => hs2 hc.1
      have hnc2p : ¬(signalAt data i = -1 ∧ p.in_market = true) := fun hc => hs2 hc.1
      rw [if_neg hnc1, if_neg hnc2, if_neg hnc1p, if_neg hnc2p]
      exact ⟨hm, hin, hout, htx⟩

lemma runMAk_succ (data : Frame) (k : ℕ) :
    runMAk data (k + 1) = maStep data (runMAk data k) (200 + k) := by
  unfold runMAk
  rw [List.range'_concat, List.foldl_append]
  simp

lemma prepStateK_succ (data : Frame) (k : ℕ) :
    prepStateK data (k + 1) = prepStep data (prepStateK data k) (201 + k) := by
  unfold prepStateK
  rw [List.range'_concat, List.foldl_append]
  simp

/-- After any number k of steps the two loop states satisfy the invariant. -/
lemma inv_k (data : Frame) (hpos : ∀ r ∈ data, 0 < r.close) (k : ℕ) :
    SimInv (runMAk data k) (prepStateK data k) := by
  induction k with
  | zero =>
    simpa [runMAk, prepStateK, List.range'] using inv_init
  | succ n ih =>
    rw [runMAk_succ, prepStateK_succ]
    have h201 : 201 + n = (200 + n) + 1 := by omega
    rw [h201]
    exact inv_step data hpos _ _ _ ih

/-- The crossover loop is its first length-201 prefix of steps followed by
one final step at the last index. -/
lemma runMA_last (data : Frame) (h : 200 < data.length) :
    runMA data = maStep data (runMAk data (data.length - 201)) (data.length - 1) := by
  unfold runMA
  have h1 : data.length - 200 = (data.length - 201) + 1 := by omega
  rw [h1, runMAk_succ]
  have h2 : 200 + (data.length - 201) = data.length - 1 := by omega
  rw [h2]

/-- The lagged simulator described by the spec coincides, step by step, with
the code's crossover loop stopped one index early: its step at loop index i
is exactly the code's step at index i-1. -/
lemma specLag_eq (data : Frame) :
    specLagSim data = runMAk data (data.length - 201) := by
  unfold specLagSim runMAk
  have hr : List.range' 201 (data.length - 201) =
      List.map (fun x => 1 + x) (List.range' 200 (data.length - 201)) :=
    (List.map_add_range' 1 200 (data.length - 201) 1).symm
  rw [hr, List.foldl_map]
  congr 1
  funext st j
  simp only [specLagStep, maStep, Nat.add_sub_cancel_left]

/-- The MA_Value cell at the last index, for a frame long enough to reach
the loop, is determined by the prepare-loop state after all its iterations;
the index-200 starting cell (value 10000.0) is the same formula applied to
the initial flat state. -/
lemma MA_last (data : Frame) (h : 200 < data.length) :
    MA_Value_at data (data.length - 1) =
      some (if (prepStateK data (data.length - 201)).in_market then
        (prepStateK data (data.length - 201)).shares * closeAt data (data.length - 1)
      else (prepStateK data (data.length - 201)).current_value) := by
  unfold MA_Value_at
  have hi200 : ¬(data.length - 1 < 200) := by omega
  rw [if_neg hi200]
  by_cases h2 : data.length - 1 = 200
  · rw [if_pos h2]
    have hk : data.length - 201 = 0 := by omega
    rw [hk]
    have h0 : prepStateK data 0 = initPrep := by simp [prepStateK, List.range']
    rw [h0]
    simp [initPrep]
  · rw [if_neg h2]
    have hk : data.length - 1 - 200 = data.length - 201 := by omega
    rw [hk]

/-- The last recorded MA_Value equals the final value computed by
`ma_crossover_strategy`: the code's extra final step (it also acts on a
signal at the last index, which the prepare loop never reads) cannot change
the final valuation, and the cash-sign dispatch agrees with the market flag
by the simulation invariant. -/
lemma final_value_eq (data : Frame) (hlen : 200 < data.length)
    (hpos : ∀ r ∈ data, 0 < r.close) :
    MA_Value_at data (data.length - 1) = ma_crossover_final_value data := by
  have hne : data ≠ [] := by
    intro h
    rw [h] at hlen
    simp at hlen
  obtain ⟨last, hlast⟩ := Option.isSome_iff_exists.mp (List.getLast?_isSome.mpr hne)
  have hlastclose : last.close = closeAt data (data.length - 1) := by
    have h1 : data.getLast? = data.get? (data.length - 1) := by
      rw [List.get?_eq_getElem?, List.getLast?_eq_getElem?]
    rw [h1] at hlast
    unfold closeAt
    rw [hlast]
    rfl
  unfold ma_crossover_final_value
  rw [hlast, Option.map_some', MA_last data hlen, runMA_last data hlen, hlastclose]
  obtain ⟨hm, hin, hout, -⟩ := inv_k data hpos (data.length - 201)
  simp only [maStep]
  cases hcm : (runMAk data (data.length - 201)).in_market with
  | false =>
    obtain ⟨hcash, hcsh, hpsh, hcpos⟩ := hout hcm
    have hpm : (prepStateK data (data.length - 201)).in_market = false := by
      rw [← hm]
      exact hcm
    by_cases hs1 : signalAt data (data.length - 1) = 1
    · have hcl : 0 < closeAt data (data.length - 1) :=
        closeAt_pos data hpos _ (by rw [hs1]; decide)
      have hc : signalAt data (data.length - 1) = 1 ∧ false = false := ⟨hs1, rfl⟩
      rw [if_pos hc]
      simp [hpm, hcash, ne_of_gt hcl]
    · have hnc1 : ¬(signalAt data (data.length - 1) = 1 ∧ false = false) :=
        fun hc => hs1 hc.1
      have hnc2 : ¬(signalAt data (data.length - 1) = -1 ∧ false = true) := by
        rintro ⟨-, h2⟩
        exact absurd h2 (by decide)
      rw [if_neg hnc1, if_neg hnc2, if_pos hcpos]
      simp [hpm, hcash]
  | true =>
    obtain ⟨hsh, hcash0, hshpos⟩ := hin hcm
    have hpm : (prepStateK data (data.length - 201)).in_market = true := by
      rw [← hm]
      exact hcm
    have hnc1 : ¬(signalAt data (data.length - 1) = 1 ∧ true = false) := by
      rintro ⟨-, h2⟩
      exact absurd h2 (by decide)
    by_cases hs2 : signalAt data (data.length - 1) = -1
    · have hcl : 0 < closeAt data (data.length - 1) :=
        closeAt_pos data hpos _ (by rw [hs2]; decide)
      have hc : signalAt data (data.length - 1) = -1 ∧ true = true := ⟨hs2, rfl⟩
      rw [if_neg hnc1, if_pos hc]
      simp [hpm, hsh, mul_pos hshpos hcl]
      rw [if_pos (by rw [← hsh]; exact mul_pos hshpos hcl)]
    · have hnc2 : ¬(signalAt data (data.length - 1) = -1 ∧ true = true) :=
        fun hc => hs2 hc.1
      rw [if_neg hnc1, if_neg hnc2]
      simp [hpm, hsh, hcash0]

/-- Action labels of the transaction log, in order. -/
def acts (st : Position) : List String :=
  st.transactions.map Transaction.action

lemma head?_concat_of_ne_nil {α : Type} (l : List α) (a : α) (h : l ≠ []) :
    (l ++ [a]).head? = l.head? := by
  cases l with
  | nil => exact absurd rfl h
  | cons b bs => rfl

/-- Log-shape invariant of the crossover loop: the first action (if any) is
BUY, adjacent actions differ, and the last action is BUY exactly while in
the market. -/
def AltLog (st : Position) : Prop :=
  (acts st = [] ∨ (acts st).head? = some BUY) ∧
  List.Chain' (fun a b => a ≠ b) (acts st) ∧
  (st.in_market = true → (acts st).getLast? = some BUY) ∧
  (st.in_market = false → acts st = [] ∨ (acts st).getLast? = some SELL)

lemma altLog_init : AltLog initPos := by
  refine ⟨Or.inl rfl, ?_, ?_, fun _ => Or.inl rfl⟩
  · simp [acts, initPos]
  · intro h
    simp [initPos] at h

lemma altLog_step (data : Frame) (st : Position) (i : ℕ) (h : AltLog st) :
    AltLog (maStep data st i) := by
  obtain ⟨hhead, hchain, hlastB, hlastS⟩ := h
  simp only [maStep]
  cases hcm : st.in_market with
  | false =>
    by_cases hs1 : signalAt data i = 1
    · have hc : signalAt data i = 1 ∧ false = false := ⟨hs1, rfl⟩
      rw [if_pos hc]
      have hacts : acts (⟨0, st.cash / closeAt data i, true,
          st.transactions ++ [⟨i, BUY, closeAt data i, st.cash / closeAt data i,
            st.cash / closeAt data i * closeAt data i⟩]⟩ : Position) = acts st ++ [BUY] := by
        simp [acts]
      rcases hlastS hcm with hemp | hsell
      · refine ⟨?_, ?_, ?_, ?_⟩
        · right
          rw [hacts, hemp]
          rfl
        · rw [hacts, hemp]
          simp
        · intro _
          rw [hacts, hemp]
          rfl
        · intro hfalse
          simp at hfalse
      · have hne : acts st ≠ [] := by
          intro h0
          rw [h0] at hsell
          simp at hsell
        refine ⟨?_, ?_, ?_, ?_⟩
        · right
          rw [hacts, head?_concat_of_ne_nil _ _ hne]
          rcases hhead with h0 | h0
          · exact absurd h0 hne
          · exact h0
        · rw [hacts]
          refine List.chain'_append.mpr ⟨hchain, List.chain'_singleton BUY, ?_⟩
          intro x hx y hy
          rw [hsell] at hx
          simp only [Option.mem_def, Option.some_inj] at hx
          simp only [List.head?_cons, Option.mem_def, Option.some_inj] at hy
          rw [← hx, ← hy]
          decide
        · intro _
          rw [hacts, List.getLast?_concat]
        · intro hfalse
          simp at hfalse
    · have hnc1 : ¬(signalAt data i = 1 ∧ false = false) := fun hc => hs1 hc.1
      have hnc2 : ¬(signalAt data i = -1 ∧ false = true) := by
        rintro ⟨-, h2⟩
        exact absurd h2 (by decide)
      rw [if_neg hnc1, if_neg hnc2]
      exact ⟨hhead, hchain, hlastB, hlastS⟩
  | true =>
    have hnc1 : ¬(signalAt data i = 1 ∧ true = false) := by
      rintro ⟨-, h2⟩
      exact absurd h2 (by decide)
    by_cases hs2 : signalAt data i = -1
    · have hc : signalAt data i = -1 ∧ true = true := ⟨hs2, rfl⟩
      rw [if_neg hnc1, if_pos hc]
      have hacts : acts (⟨st.shares * closeAt data i, 0, false,
          st.transactions ++ [⟨i, SELL, closeAt data i, 0,
            st.shares * closeAt data i⟩]⟩ : Position) = acts st ++ [SELL] := by
        simp [acts]
      have hbuy := hlastB hcm
      have hne : acts st ≠ [] := by
        intro h0
        rw [h0] at hbuy
        simp at hbuy
      refine ⟨?_, ?_, ?_, ?_⟩
      · right
        rw [hacts, head?_concat_of_ne_nil _ _ hne]
        rcases hhead with h0 | h0
        · exact absurd h0 hne
        · exact h0
      · rw [hacts]
        refine List.chain'_append.mpr ⟨hchain, List.chain'_singleton SELL, ?_⟩
        intro x hx y hy
        rw [hbuy] at hx
        simp only [Option.mem_def, Option.some_inj] at hx
        simp only [List.head?_cons, Option.mem_def, Option.some_inj] at hy
        rw [← hx, ← hy]
        decide
      · intro hfalse
        simp at hfalse
      · intro _
        right
        rw [hacts, List.getLast?_concat]
    · have hnc2 : ¬(signalAt data i = -1 ∧ true = true) := fun hc => hs2 hc.1
      rw [if_neg hnc1, if_neg hnc2]
      exact ⟨hhead, hchain, hlastB, hlastS⟩

lemma altLog_k (data : Frame) (k : ℕ) : AltLog (runMAk data k) := by
  induction k with
  | zero => simpa [runMAk, List.range'] using altLog_init
  | succ n ih =>
    rw [runMAk_succ]
    exact altLog_step data _ _ ih

/-- Concrete evaluation: on `frameA` the code's loop performs its single buy
at index 200 (the last index), at that index's close. -/
lemma runMA_frameA : runMA frameA = ⟨0, 100, true, [⟨200, BUY, 100, 100, 10000⟩]⟩ := by
  have h1 : frameA.length - 200 = 1 := by decide
  show runMAk frameA (frameA.length - 200) = _
  rw [h1]
  unfold runMAk
  rw [show List.range' 200 1 = [200] from rfl, List.foldl_cons, List.foldl_nil]
  simp only [maStep]
  rw [if_pos (⟨by decide, rfl⟩ : signalAt frameA 200 = 1 ∧ initPos.in_market = false)]
  have hcl : closeAt frameA 200 = 100 := by decide
  rw [hcl]
  norm_num [initPos]

/-- Concrete evaluation: on `frameNeg` (all closes -100) the code buys a
negative number of shares without any failure. -/
lemma runMA_frameNeg : runMA frameNeg = ⟨0, -100, true, [⟨200, BUY, -100, -100, 10000⟩]⟩ := by
  have h1 : frameNeg.length - 200 = 1 := by decide
  show runMAk frameNeg (frameNeg.length - 200) = _
  rw [h1]
  unfold runMAk
  rw [show List.range' 200 1 = [200] from rfl, List.foldl_cons, List.foldl_nil]
  simp only [maStep]
  rw [if_pos (⟨by decide, rfl⟩ : signalAt frameNeg 200 = 1 ∧ initPos.in_market = false)]
  have hcl : closeAt frameNeg 200 = -100 := by decide
  rw [hcl]
  norm_num [initPos]

/-! Claim theorems. -/

/-- C1 (counterexample): the crossover simulator does NOT act only on lagged
signals.  On `frameA` (length 201, all closes 100, one Buy signal at the
last index 200) the claimed lagged scan over indices 201..N-1 performs no
trade and logs nothing, yet the code's `ma_crossover_strategy` acts on the
signal at index 200 itself, at close(200), and logs a Buy transaction dated
200 — so its log differs from the claimed one even though the claim's
hypotheses (length > 200, all closes positive) hold. -/
theorem C1_counterexample :
    (200 < frameA.length ∧ ∀ r ∈ frameA, 0 < r.close) ∧
    (specLagSim frameA).transactions = [] ∧
    (runMA frameA).transactions = [⟨200, BUY, 100, 100, 10000⟩] ∧
    (runMA frameA).transactions ≠ (specLagSim frameA).transactions := by
  have hrun : (runMA frameA).transactions = [⟨200, BUY, 100, 100, 10000⟩] := by
    rw [runMA_frameA]
  have hspec : (specLagSim frameA).transactions = [] := by decide
  refine ⟨by decide, hspec, hrun, ?_⟩
  rw [hrun, hspec]
  simp

/-- C1 (amended): `ma_crossover_strategy` scans indices from the warm-up
boundary 200 itself through the last index and acts at each index i on the
signal at i, trading at close(i) and logging the transaction dated i.  This
agrees with the spec's lagged scan on every step except the last: the
lagged scan equals the code's loop stopped one index early, and for frames
longer than 200 rows the code performs one extra step at the last index
(acting on a signal there, which the lagged scan never reads). -/
theorem C1_amended (data : Frame) :
    specLagSim data = runMAk data (data.length - 201) ∧
    (200 < data.length →
      runMA data = maStep data (runMAk data (data.length - 201)) (data.length - 1)) :=
  ⟨specLag_eq data, fun h => runMA_last data h⟩

theorem C1_amended_witness :
    runMA frameA = maStep frameA (runMAk frameA (frameA.length - 201)) (frameA.length - 1) :=
  (C1_amended frameA).2 (by decide)

/-- C2: for every indicator-augmented frame longer than 200 rows with all
closes positive, the two crossover implementations agree: the value at the
last index of the MA_Value column built by `prepare_strategy_data` equals
the final_value returned by `ma_crossover_strategy`. -/
theorem C2_equiv (data : Frame) (hlen : 200 < data.length)
    (hpos : ∀ r ∈ data, 0 < r.close) :
    (prepare_strategy_data_MA data).bind List.getLast? =
      some (ma_crossover_final_value data) := by
  unfold prepare_strategy_data_MA
  rw [if_pos hlen]
  rw [show (some ((List.range data.length).map (MA_Value_at data))).bind List.getLast? =
      ((List.range data.length).map (MA_Value_at data)).getLast? from rfl]
  rw [List.getLast?_map, List.range_eq_range', List.getLast?_range']
  rw [if_neg (show ¬data.length = 0 by omega), Option.map_some']
  rw [show 0 + data.length - 1 = data.length - 1 by omega]
  rw [final_value_eq data hlen hpos]

theorem C2_equiv_witness :
    (prepare_strategy_data_MA frameA).bind List.getLast? =
      some (ma_crossover_final_value frameA) :=
  C2_equiv frameA (by decide) (by decide)

/-- C3 (counterexample): on a series of length exactly 200 the buy-and-hold
strategy does not enter the market at the last index; `buy_and_hold`
accesses `Close.iloc[200]`, one past the last index, and fails with an
IndexError (modeled none), and `prepare_strategy_data` fails the same way
at `index[200]`, so no equity curve with exactly one defined point is
produced. -/
theorem C3_counterexample :
    frame200.length = 200 ∧ buy_and_hold frame200 = none ∧
    prepare_strategy_data_MA frame200 = none := by decide

/-- C3 (amended): for every series of length exactly 200 the code's warm-up
boundary (index 200) lies one past the last index: `buy_and_hold` and
`prepare_strategy_data` abort with an index error instead of entering the
market, the equity curves are not produced at all, and the crossover
strategy never trades and logs nothing. -/
theorem C3_amended (data : Frame) (s : ℚ) (h : data.length = 200) :
    buy_and_hold data = none ∧ prepare_strategy_data_MA data = none ∧
    prepare_strategy_data_BH data s = none ∧ runMA data = initPos ∧
    (runMA data).transactions = [] := by
  have hbh : data.get? 200 = none := List.get?_eq_none.mpr (by omega)
  have hrun : runMA data = initPos := by
    unfold runMA runMAk
    rw [show data.length - 200 = 0 by omega]
    rfl
  refine ⟨?_, ?_, ?_, hrun, by rw [hrun]; rfl⟩
  · unfold buy_and_hold
    rw [hbh]
  · unfold prepare_strategy_data_MA
    rw [if_neg (by omega)]
  · unfold prepare_strategy_data_BH
    rw [if_neg (by omega)]

theorem C3_amended_witness :
    buy_and_hold frame200 = none ∧ prepare_strategy_data_MA frame200 = none ∧
    prepare_strategy_data_BH frame200 100 = none ∧ runMA frame200 = initPos ∧
    (runMA frame200).transactions = [] :=
  C3_amended frame200 100 (by decide)

/-- C4 (counterexample): for a series shorter than the long window the
simulation does not succeed as a valid empty-strategy outcome:
`buy_and_hold` (at `iloc[200]`) and `prepare_strategy_data` (at
`index[200]`) both abort with an index error instead of returning entirely
undefined equity curves. -/
theorem C4_counterexample :
    frame100.length < 200 ∧ buy_and_hold frame100 = none ∧
    prepare_strategy_data_MA frame100 = none := by decide

/-- C4 (amended): for every nonempty series shorter than 200 rows the
crossover loop body never runs — no trade executes, the transaction log is
empty and the final value is the untouched initial capital 10000 — but the
equity-curve builders `buy_and_hold` and `prepare_strategy_data` abort with
an index error (none) rather than succeeding with undefined curves. -/
theorem C4_amended (data : Frame) (s : ℚ) (h1 : data.length < 200) (h2 : data ≠ []) :
    (runMA data).transactions = [] ∧ ma_crossover_final_value data = some 10000 ∧
    buy_and_hold data = none ∧ prepare_strategy_data_MA data = none ∧
    prepare_strategy_data_BH data s = none := by
  have hrun : runMA data = initPos := by
    unfold runMA runMAk
    rw [show data.length - 200 = 0 by omega]
    rfl
  obtain ⟨last, hlast⟩ := Option.isSome_iff_exists.mp (List.getLast?_isSome.mpr h2)
  refine ⟨by rw [hrun]; rfl, ?_, ?_, ?_, ?_⟩
  · unfold ma_crossover_final_value
    rw [hlast, Option.map_some', hrun]
    norm_num [initPos]
  · unfold buy_and_hold
    rw [List.get?_eq_none.mpr (by omega)]
  · unfold prepare_strategy_data_MA
    rw [if_neg (by omega)]
  · unfold prepare_strategy_data_BH
    rw [if_neg (by omega)]

theorem C4_amended_witness :
    (runMA frame100).transactions = [] ∧
    ma_crossover_final_value frame100 = some 10000 ∧
    buy_and_hold frame100 = none ∧ prepare_strategy_data_MA frame100 = none ∧
    prepare_strategy_data_BH frame100 100 = none :=
  C4_amended frame100 100 (by decide) (by decide)

/-- C5 (counterexample): there is no InvalidPriceError anywhere in the
code.  On `frameNeg` (every close is -100, a Buy signal at a point where
the simulator must trade) the simulation completes normally and silently
logs a negative share count (-100), and even reports a final value. -/
theorem C5_counterexample :
    (runMA frameNeg).transactions = [⟨200, BUY, -100, -100, 10000⟩] ∧
    ma_crossover_final_value frameNeg = some 10000 ∧
    ((-100 : ℚ) < 0) := by
  refine ⟨by rw [runMA_frameNeg], ?_, by norm_num⟩
  unfold ma_crossover_final_value
  rw [show frameNeg.getLast? = some ⟨-100, 1⟩ from by decide, Option.map_some', runMA_frameNeg]
  norm_num

/-- C5 (amended): the code performs no price validation and defines no
InvalidPriceError; a non-positive close at a trade point silently produces
a negative share count instead of an error.  For valid inputs (all closes
positive) no bad share count can arise: every logged transaction carries a
positive price and a nonnegative share count. -/
theorem C5_amended (data : Frame) (hpos : ∀ r ∈ data, 0 < r.close) :
    ∀ t ∈ (runMA data).transactions, 0 < t.price ∧ 0 ≤ t.shares := by
  obtain ⟨-, -, -, htx⟩ := inv_k data hpos (data.length - 200)
  exact htx

theorem C5_amended_witness :
    0 < (Transaction.mk 200 BUY 100 100 10000).price ∧
    0 ≤ (Transaction.mk 200 BUY 100 100 10000).shares :=
  C5_amended frameA (by decide) (Transaction.mk 200 BUY 100 100 10000)
    (by rw [runMA_frameA]; simp)

/-- C8: in the transaction log of the crossover simulator the action labels
strictly alternate starting with BUY: the first logged action (if any) is
BUY and no two consecutive actions are equal. -/
theorem C8_alternation (data : Frame) :
    (acts (runMA data) = [] ∨ (acts (runMA data)).head? = some BUY) ∧
    List.Chain' (fun a b => a ≠ b) (acts (runMA data)) := by
  obtain ⟨h1, h2, -, -⟩ := altLog_k data (data.length - 200)
  exact ⟨h1, h2⟩

/-- C9: with all closes positive, at every step of the crossover simulation
exactly one of cash or shares is active (in the market: cash = 0 and
shares > 0; flat: shares = 0 and cash > 0), and consequently the code's
final-value rule (cash if cash > 0 else shares times last close) agrees
with dispatching on the in_market flag directly. -/
theorem C9_invariant (data : Frame) (hpos : ∀ r ∈ data, 0 < r.close) :
    (∀ k, ((runMAk data k).in_market = true →
        (runMAk data k).cash = 0 ∧ 0 < (runMAk data k).shares) ∧
      ((runMAk data k).in_market = false →
        (runMAk data k).shares = 0 ∧ 0 < (runMAk data k).cash)) ∧
    ((if 0 < (runMA data).cash then (runMA data).cash
      else (runMA data).shares * lastClose data) =
      if (runMA data).in_market = true then (runMA data).shares * lastClose data
      else (runMA data).cash) := by
  have hk : ∀ k, ((runMAk data k).in_market = true →
      (runMAk data k).cash = 0 ∧ 0 < (runMAk data k).shares) ∧
      ((runMAk data k).in_market = false →
        (runMAk data k).shares = 0 ∧ 0 < (runMAk data k).cash) := by
    intro k
    obtain ⟨-, hin, hout, -⟩ := inv_k data hpos k
    exact ⟨fun hm => ⟨(hin hm).2.1, (hin hm).2.2⟩,
      fun hm => ⟨(hout hm).2.1, (hout hm).2.2.2⟩⟩
  refine ⟨hk, ?_⟩
  unfold runMA
  have h := hk (data.length - 200)
  cases hcm : (runMAk data (data.length - 200)).in_market with
  | false =>
    obtain ⟨-, hcpos⟩ := h.2 hcm
    rw [if_pos hcpos]
    simp
  | true =>
    obtain ⟨hc0, -⟩ := h.1 hcm
    rw [hc0]
    simp

theorem C9_invariant_witness :
    (if 0 < (runMA frameA).cash then (runMA frameA).cash
     else (runMA frameA).shares * lastClose frameA) =
      if (runMA frameA).in_market = true then (runMA frameA).shares * lastClose frameA
      else (runMA frameA).cash :=
  (C9_invariant frameA (by decide)).2

/-- C10: `to_scalar` returns 0.0 for an empty pandas Series or DataFrame
instead of raising, and otherwise the float value of the first element (for
Series/DataFrame input) or of the value itself — so a missing price at a
valuation point silently becomes the price 0.0. -/
theorem C10_to_scalar :
    to_scalar (PyVal.series []) = 0 ∧ to_scalar (PyVal.frame []) = 0 ∧
    (∀ x xs, to_scalar (PyVal.series (x :: xs)) = x) ∧
    (∀ x xs, to_scalar (PyVal.frame (x :: xs)) = x) ∧
    (∀ x, to_scalar (PyVal.scalar x) = x) :=
  ⟨rfl, rfl, fun _ _ => rfl, fun _ _ => rfl, fun _ => rfl⟩

/-! Lemmas for the signal generator and the indicator calculator. -/

lemma optGT_eq_true {X Y : Option ℚ} (h : optGT X Y = true) :
    ∃ x y, X = some x ∧ Y = some y ∧ y < x := by
  cases X with
  | none => simp [optGT] at h
  | some x =>
    cases Y with
    | none => simp [optGT] at h
    | some y => exact ⟨x, y, rfl, rfl, by simpa [optGT] using h⟩

lemma optLT_eq_true {X Y : Option ℚ} (h : optLT X Y = true) :
    ∃ x y, X = some x ∧ Y = some y ∧ x < y := by
  cases X with
  | none => simp [optLT] at h
  | some x =>
    cases Y with
    | none => simp [optLT] at h
    | some y => exact ⟨x, y, rfl, rfl, by simpa [optLT] using h⟩

lemma optLE_eq_true {X Y : Option ℚ} (h : optLE X Y = true) :
    ∃ x y, X = some x ∧ Y = some y ∧ x ≤ y := by
  cases X with
  | none => simp [optLE] at h
  | some x =>
    cases Y with
    | none => simp [optLE] at h
    | some y => exact ⟨x, y, rfl, rfl, by simpa [optLE] using h⟩

lemma optGE_eq_true {X Y : Option ℚ} (h : optGE X Y = true) :
    ∃ x y, X = some x ∧ Y = some y ∧ y ≤ x := by
  cases X with
  | none => simp [optGE] at h
  | some x =>
    cases Y with
    | none => simp [optGE] at h
    | some y => exact ⟨x, y, rfl, rfl, by simpa [optGE] using h⟩

lemma signal_eq_one_iff (f : IndFrame) (i : ℕ) :
    Signal_at f i = 1 ↔ ∃ a b c d, colAt f.ma50 i = some a ∧ colAt f.ma200 i = some b ∧
      prevAt f.ma50 i = some c ∧ prevAt f.ma200 i = some d ∧ b < a ∧ c ≤ d := by
  unfold Signal_at
  constructor
  · intro h
    by_cases hs : (optLT (colAt f.ma50 i) (colAt f.ma200 i) &&
        optGE (prevAt f.ma50 i) (prevAt f.ma200 i)) = true
    · rw [if_pos hs] at h
      exact absurd h (by decide)
    · rw [if_neg hs] at h
      by_cases hb : (optGT (colAt f.ma50 i) (colAt f.ma200 i) &&
          optLE (prevAt f.ma50 i) (prevAt f.ma200 i)) = true
      · obtain ⟨h1, h2⟩ := (Bool.and_eq_true _ _) ▸ hb
        obtain ⟨a, b, hA, hB, hab⟩ := optGT_eq_true h1
        obtain ⟨c, d, hC, hD, hcd⟩ := optLE_eq_true h2
        exact ⟨a, b, c, d, hA, hB, hC, hD, hab, hcd⟩
      · rw [if_neg hb] at h
        exact absurd h (by decide)
  · rintro ⟨a, b, c, d, hA, hB, hC, hD, hab, hcd⟩
    have hb : (optGT (colAt f.ma50 i) (colAt f.ma200 i) &&
        optLE (prevAt f.ma50 i) (prevAt f.ma200 i)) = true := by
      rw [hA, hB, hC, hD]
      simp [optGT, optLE, hab, hcd]
    have hs : (optLT (colAt f.ma50 i) (colAt f.ma200 i) &&
        optGE (prevAt f.ma50 i) (prevAt f.ma200 i)) = false := by
      rw [hA, hB]
      simp [optLT, not_lt.mpr (le_of_lt hab)]
    rw [if_neg (by rw [hs]; decide), if_pos hb]

lemma signal_eq_negone_iff (f : IndFrame) (i : ℕ) :
    Signal_at f i = -1 ↔ ∃ a b c d, colAt f.ma50 i = some a ∧ colAt f.ma200 i = some b ∧
      prevAt f.ma50 i = some c ∧ prevAt f.ma200 i = some d ∧ a < b ∧ d ≤ c := by
  unfold Signal_at
  constructor
  · intro h
    by_cases hs : (optLT (colAt f.ma50 i) (colAt f.ma200 i) &&
        optGE (prevAt f.ma50 i) (prevAt f.ma200 i)) = true
    · obtain ⟨h1, h2⟩ := (Bool.and_eq_true _ _) ▸ hs
      obtain ⟨a, b, hA, hB, hab⟩ := optLT_eq_true h1
      obtain ⟨c, d, hC, hD, hcd⟩ := optGE_eq_true h2
      exact ⟨a, b, c, d, hA, hB, hC, hD, hab, hcd⟩
    · rw [if_neg hs] at h
      by_cases hb : (optGT (colAt f.ma50 i) (colAt f.ma200 i) &&
          optLE (prevAt f.ma50 i) (prevAt f.ma200 i)) = true
      · rw [if_pos hb] at h
        exact absurd h (by decide)
      · rw [if_neg hb] at h
        exact absurd h (by decide)
  · rintro ⟨a, b, c, d, hA, hB, hC, hD, hab, hcd⟩
    have hs : (optLT (colAt f.ma50 i) (colAt f.ma200 i) &&
        optGE (prevAt f.ma50 i) (prevAt f.ma200 i)) = true := by
      rw [hA, hB, hC, hD]
      simp [optLT, optGE, hab, hcd]
    rw [if_pos hs]

lemma signal_cases (f : IndFrame) (i : ℕ) :
    Signal_at f i = 0 ∨ Signal_at f i = 1 ∨ Signal_at f i = -1 := by
  unfold Signal_at
  split_ifs <;> simp

lemma signal_zero_at_zero (f : IndFrame) : Signal_at f 0 = 0 := by
  unfold Signal_at
  rw [show prevAt f.ma50 0 = none from rfl, show prevAt f.ma200 0 = none from rfl]
  rw [show optGE (none : Option ℚ) none = false from rfl,
    show optLE (none : Option ℚ) none = false from rfl]
  simp

/-- C6: the signal at each index is exactly one of 1 (Buy), -1 (Sell), 0
(None): Buy iff both indicators are defined at i and i-1 with
ma50[i] > ma200[i] and ma50[i-1] <= ma200[i-1]; Sell symmetric with strict
downward cross; 0 otherwise, in particular whenever either indicator is
undefined at i or i-1, and always at index 0. -/
theorem C6_signal_rule (f : IndFrame) (i : ℕ) :
    (Signal_at f i = 1 ↔ ∃ a b c d, colAt f.ma50 i = some a ∧ colAt f.ma200 i = some b ∧
      prevAt f.ma50 i = some c ∧ prevAt f.ma200 i = some d ∧ b < a ∧ c ≤ d) ∧
    (Signal_at f i = -1 ↔ ∃ a b c d, colAt f.ma50 i = some a ∧ colAt f.ma200 i = some b ∧
      prevAt f.ma50 i = some c ∧ prevAt f.ma200 i = some d ∧ a < b ∧ d ≤ c) ∧
    (Signal_at f i = 0 ∨ Signal_at f i = 1 ∨ Signal_at f i = -1) ∧
    (i = 0 → Signal_at f i = 0) := by
  refine ⟨signal_eq_one_iff f i, signal_eq_negone_iff f i, signal_cases f i, ?_⟩
  intro h0
  rw [h0]
  exact signal_zero_at_zero f

/-- The slice of w closes summed by the rolling mean is the reverse of the
spec's list of the trailing w closes read backwards from index i. -/
lemma window_list_eq (close : List ℚ) (i w : ℕ) (hw : 0 < w) (hwi : w ≤ i + 1)
    (hi : i < close.length) :
    (close.drop (i + 1 - w)).take w =
      (((List.range w).map fun j => close.getD (i - j) 0)).reverse := by
  have hlen1 : ((close.drop (i + 1 - w)).take w).length = w := by
    rw [List.length_take, List.length_drop]
    omega
  have hlen2 : ((((List.range w).map fun j => close.getD (i - j) 0)).reverse).length = w := by
    simp
  apply List.ext_getElem (by rw [hlen1, hlen2])
  intro n h1 h2
  have hn : n < w := by rw [hlen1] at h1; exact h1
  rw [List.getElem_take, List.getElem_drop, List.getElem_reverse]
  simp only [List.length_map, List.length_range, List.getElem_map, List.getElem_range]
  have hidx : i - (w - 1 - n) = i + 1 - w + n := by omega
  rw [hidx, List.getD_eq_getElem close 0 (by omega)]

/-- pandas' rolling mean coincides with the naive trailing mean at every
in-range index (including agreement of the undefined warm-up region). -/
lemma rollingMean_eq_spec (close : List ℚ) (w i : ℕ) (hw : 0 < w)
    (hi : i < close.length) :
    rollingMean w close i = trailingMeanSpec w close i := by
  unfold rollingMean trailingMeanSpec
  by_cases h : i + 1 < w
  · rw [if_pos h, if_pos (by omega)]
  · rw [if_neg h, if_neg (by omega),
      window_list_eq close i w hw (by omega) hi, List.sum_reverse]

/-- C7: `calculate_moving_averages` fills MA50 and MA200 with the rolling
mean at every index of the series, and the rolling mean for any window size
equals the naive trailing-mean definition (arithmetic mean of the w closes
ending at i inclusive, undefined for i < w-1). -/
theorem C7_moving_average (close : List ℚ) (w i : ℕ) (hw : 0 < w)
    (hi : i < close.length) :
    (calculate_moving_averages close).1.get? i = some (rollingMean 50 close i) ∧
    (calculate_moving_averages close).2.get? i = some (rollingMean 200 close i) ∧
    rollingMean w close i = trailingMeanSpec w close i := by
  refine ⟨?_, ?_, rollingMean_eq_spec close w i hw hi⟩
  · show ((List.range close.length).map (rollingMean 50 close)).get? i = _
    rw [List.get?_map, List.get?_range hi]
    rfl
  · show ((List.range close.length).map (rollingMean 200 close)).get? i = _
    rw [List.get?_map, List.get?_range hi]
    rfl

theorem C7_moving_average_witness :
    (calculate_moving_averages [1, 2, 3]).1.get? 2 = some (rollingMean 50 [1, 2, 3] 2) ∧
    (calculate_moving_averages [1, 2, 3]).2.get? 2 = some (rollingMean 200 [1, 2, 3] 2) ∧
    rollingMean 2 [1, 2, 3] 2 = trailingMeanSpec 2 [1, 2, 3] 2 :=
  C7_moving_average [1, 2, 3] 2 2 (by decide) (by decide)
